import Mathlib

/-!
Verification of the things-dxt request-to-script-to-result pipeline.

The JavaScript source is embedded shallowly: strings are `String`/`List Char`,
JavaScript objects with optional fields become structures with `Option` fields,
fallible functions return `Except`, and the external process boundary is
modelled by explicit invocation and state values.  Each definition is a direct
translation of the named source function.
-/

/-! ## Generic character/string helpers (JS string primitives) -/

/-- JS whitespace characters relevant to `String.prototype.trim`. -/
def isWsChar (c : Char) : Bool :=
  c = ' ' || c = '\t' || c = '\n' || c = '\r' || c = '\x0b' || c = '\x0c'

/-- Left trim: drop leading whitespace. -/
def trimLeftChars (l : List Char) : List Char := l.dropWhile isWsChar

/-- JS `String.prototype.trim`: drop whitespace from both ends. -/
def trimChars (l : List Char) : List Char :=
  ((trimLeftChars (trimLeftChars l).reverse).reverse : List Char)

/-- JS trim on `String`. -/
def trimS (s : String) : String := ⟨trimChars s.data⟩

/-- JS `String.prototype.split` with a one-character separator.  The result is
never empty, and splitting the empty string gives `[[]]`, exactly as in JS. -/
def splitCh (sep : Char) : List Char → List (List Char)
  | [] => [[]]
  | c :: rest =>
    match splitCh sep rest with
    | [] => [[]]
    | h :: t => if c = sep then [] :: h :: t else (c :: h) :: t

/-- Substring containment test (JS `String.prototype.includes`). -/
def containsSub (pat : List Char) : List Char → Bool
  | [] => pat.isEmpty
  | c :: rest => pat.isPrefixOf (c :: rest) || containsSub pat rest

/-- Expand each character into a character list and concatenate (the shape of a
global single-character-pattern regex replace). -/
def charExpand (f : Char → List Char) : List Char → List Char
  | [] => []
  | c :: rest => f c ++ charExpand f rest

/-- JS `parseInt(x) || 0`: skip leading whitespace, optional sign, read leading
decimal digits; if there are none the `NaN || 0` fallback yields `0`. -/
def jsParseIntOr0 (l : List Char) : Int :=
  let l := trimLeftChars l
  let (neg, l) : Bool × List Char :=
    match l with
    | '-' :: rest => (true, rest)
    | '+' :: rest => (false, rest)
    | rest => (false, rest)
  let digits := l.takeWhile fun c => 48 ≤ c.toNat && c.toNat ≤ 57
  if digits = [] then 0
  else
    let n : Nat := digits.foldl (fun acc c => 10 * acc + (c.toNat - 48)) 0
    if neg then -(n : Int) else (n : Int)

/-! ## DataParser (src/unnamed/part_006, first document)

Positional tab-delimited wire-format decoding.  Each non-blank line is split on
tabs; `parts[i] || ''` becomes `(parts.get? i).getD []`; `parseInt(...) || 0`
becomes `jsParseIntOr0`; `parts[i] ? parts[i].split(',') : []` becomes a
non-empty guard before the comma split. -/

/-- `parts[i] || ''` : positional field access with empty-string default. -/
def getPart (parts : List (List Char)) (i : Nat) : List Char :=
  (parts.get? i).getD []

/-- `parts[i] ? parts[i].split(',') : []` for tag-like fields. -/
def getTagsPart (parts : List (List Char)) (i : Nat) : List String :=
  let f := getPart parts i
  if f = [] then [] else (splitCh ',' f).map fun l => (⟨l⟩ : String)

/-- The non-blank lines of the trimmed output (the loop skeleton shared by all
three positional decoders). -/
def dataLines (output : String) : List (List Char) :=
  let t := trimChars output.data
  if t = [] then []
  else (splitCh '\n' t).filter fun l => trimChars l ≠ []

structure ParsedTodo where
  id : String
  name : String
  notes : String
  due_date : String
  status : String
  creation_date : String
  modification_date : String
  completion_date : String
  project : String
  area : String
  tags : List String
deriving DecidableEq

structure ParsedProject where
  id : String
  name : String
  notes : String
  due_date : String
  status : String
  creation_date : String
  area : String
  todo_count : Int
  tags : List String
deriving DecidableEq

structure ParsedArea where
  id : String
  name : String
  project_count : Int
  todo_count : Int
  tags : List String
deriving DecidableEq

namespace DataParser

/-- One line of `DataParser.parseTodos` (11-column todo schema). -/
def todoOfLine (line : List Char) : ParsedTodo :=
  let parts := splitCh '\t' line
  { id := ⟨getPart parts 0⟩
    name := ⟨getPart parts 1⟩
    notes := ⟨getPart parts 2⟩
    due_date := ⟨getPart parts 3⟩
    status := ⟨getPart parts 4⟩
    creation_date := ⟨getPart parts 5⟩
    modification_date := ⟨getPart parts 6⟩
    completion_date := ⟨getPart parts 7⟩
    project := ⟨getPart parts 8⟩
    area := ⟨getPart parts 9⟩
    tags := getTagsPart parts 10 }

/-- `DataParser.parseTodos`. -/
def parseTodos (output : String) : List ParsedTodo :=
  (dataLines output).map todoOfLine

/-- One line of `DataParser.parseProjects` (9-column project schema). -/
def projectOfLine (line : List Char) : ParsedProject :=
  let parts := splitCh '\t' line
  { id := ⟨getPart parts 0⟩
    name := ⟨getPart parts 1⟩
    notes := ⟨getPart parts 2⟩
    due_date := ⟨getPart parts 3⟩
    status := ⟨getPart parts 4⟩
    creation_date := ⟨getPart parts 5⟩
    area := ⟨getPart parts 6⟩
    todo_count := jsParseIntOr0 (getPart parts 7)
    tags := getTagsPart parts 8 }

/-- `DataParser.parseProjects`. -/
def parseProjects (output : String) : List ParsedProject :=
  (dataLines output).map projectOfLine

/-- One line of `DataParser.parseAreas` (5-column area schema). -/
def areaOfLine (line : List Char) : ParsedArea :=
  let parts := splitCh '\t' line
  { id := ⟨getPart parts 0⟩
    name := ⟨getPart parts 1⟩
    project_count := jsParseIntOr0 (getPart parts 2)
    todo_count := jsParseIntOr0 (getPart parts 3)
    tags := getTagsPart parts 4 }

/-- `DataParser.parseAreas`. -/
def parseAreas (output : String) : List ParsedArea :=
  (dataLines output).map areaOfLine

end DataParser

example : DataParser.parseTodos "" = [] := by decide
example : DataParser.parseProjects "" = [] := by decide
example :
    DataParser.parseAreas "a1\tWork\t2\t5\tred,blue" =
      [{ id := "a1", name := "Work", project_count := 2, todo_count := 5,
         tags := ["red", "blue"] }] := by decide
example :
    DataParser.parseProjects "p1\tProj\tn\td\topen\tc" =
      [{ id := "p1", name := "Proj", notes := "n", due_date := "d",
         status := "open", creation_date := "c", area := "",
         todo_count := 0, tags := [] }] := by decide

/-! ## JSON model and JXAExecutor (src/server/jxa-executor.js)

JavaScript values read back from `JSON.parse` are modelled by the inductive
`Json`; property access `v.k` on a non-object yields `undefined`, modelled by
`Option`. -/

inductive Json where
  | null : Json
  | bool : Bool → Json
  | num : Int → Json
  | str : String → Json
  | arr : List Json → Json
  | obj : List (String × Json) → Json

/-- First-match association lookup for object properties. -/
def lookupField : List (String × Json) → String → Option Json
  | [], _ => none
  | (k, v) :: rest, key => if k = key then some v else lookupField rest key

/-- JS property access `v[k]`: `undefined` (`none`) on non-objects and missing
keys. -/
def getField (v : Json) (k : String) : Option Json :=
  match v with
  | .obj kvs => lookupField kvs k
  | _ => none

/-- JS truthiness of a parsed JSON value. -/
def jsTruthy : Json → Bool
  | .null => false
  | .bool b => b
  | .num n => n ≠ 0
  | .str s => s ≠ ""
  | .arr _ => true
  | .obj _ => true

/-- `parsed.error?.message || 'Unknown JXA error'` from
`JXAExecutor.parseResponse`. -/
def jxaErrMsg (parsed : Json) : Json :=
  match (getField parsed "error").bind fun e => getField e "message" with
  | some m => if jsTruthy m then m else .str "Unknown JXA error"
  | none => .str "Unknown JXA error"

/-- Error outcomes of `JXAExecutor.parseResponse`: the `Empty response from JXA
script` throw, the `Invalid JSON response` throw, and the re-raised embedded
JXA error. -/
inductive JxaError where
  | emptyResponse : JxaError
  | invalidJson : JxaError
  | jxaFailure : Json → JxaError

namespace JXAExecutor

/-- `JXAExecutor.parseResponse`, parameterised by the `JSON.parse` primitive
(`none` models a `SyntaxError`).  The success value is the JS return value:
`some` a JSON value, or `none` for `undefined` (`parsed.data` absent). -/
def parseResponse (parse : String → Option Json) (stdout : String) :
    Except JxaError (Option Json) :=
  let response := trimS stdout
  if response = "" then .error .emptyResponse
  else
    match parse response with
    | none => .error .invalidJson
    | some parsed =>
      match getField parsed "success" with
      | some (.bool false) => .error (.jxaFailure (jxaErrMsg parsed))
      | some (.bool true) => .ok (getField parsed "data")
      | _ => .ok (some parsed)

end JXAExecutor

/-! ## Process invocation (src/server/jxa-executor.js and src/server/index.js)

An external-interpreter invocation either passes discrete argv entries to
`execFile`, or hands one concatenated command line to a shell via `exec`. -/

inductive Invocation where
  | argv : String → List String → Invocation
  | shell : String → Invocation
deriving DecidableEq

/-- Whether an invocation uses a discrete argument array. -/
def Invocation.isArgv : Invocation → Bool
  | .argv _ _ => true
  | .shell _ => false

/-- `JSON.stringify` string escaping (quote, backslash and control characters
that appear in this system's data). -/
def jsonEscape : List Char → List Char :=
  charExpand fun c =>
    if c = '"' then ['\\', '"']
    else if c = '\\' then ['\\', '\\']
    else if c = '\n' then ['\\', 'n']
    else if c = '\t' then ['\\', 't']
    else if c = '\r' then ['\\', 'r']
    else [c]

mutual

/-- `JSON.stringify` on the `Json` model. -/
def jsonStringify : Json → String
  | .null => "null"
  | .bool b => if b then "true" else "false"
  | .num n => toString n
  | .str s => ⟨'"' :: (jsonEscape s.data ++ ['"'])⟩
  | .arr xs => "[" ++ jsonStringifyArr xs ++ "]"
  | .obj kvs => "\x7b" ++ jsonStringifyObj kvs ++ "\x7d"

def jsonStringifyArr : List Json → String
  | [] => ""
  | [x] => jsonStringify x
  | x :: y :: rest => jsonStringify x ++ "," ++ jsonStringifyArr (y :: rest)

def jsonStringifyObj : List (String × Json) → String
  | [] => ""
  | [(k, v)] => jsonStringify (.str k) ++ ":" ++ jsonStringify v
  | (k, v) :: kv :: rest =>
    jsonStringify (.str k) ++ ":" ++ jsonStringify v ++ "," ++
      jsonStringifyObj (kv :: rest)

end

namespace JXAExecutor

/-- Argument construction of `JXAExecutor.executeScript`: the bundled script
text and the JSON-serialised parameter blob are discrete argv entries of the
`execFile('osascript', args, ...)` call. -/
def executeScriptInvocation (script : String) (params : Json) : Invocation :=
  .argv "osascript" ["-l", "JavaScript", "-e", script, jsonStringify params]

end JXAExecutor

/-- The `script.replace(/'/g, "'\"'\"'")` single-quote shell escaping of
`ThingsExtension.executeAppleScript`. -/
def shellEscapeQuotes : List Char → List Char :=
  charExpand fun c => if c = '\'' then ['\'', '"', '\'', '"', '\''] else [c]

/-- The concatenated command line `osascript -e '<escaped script>'` built by
`ThingsExtension.executeAppleScript` (src/server/index.js lines 102-104). -/
def appleScriptCommand (script : String) : String :=
  ⟨"osascript -e ".data ++ '\'' :: (shellEscapeQuotes script.data ++ ['\''])⟩

/-- `ThingsExtension.executeAppleScript` hands that single string to
`exec` (a shell), not an argument array. -/
def executeAppleScriptInvocation (script : String) : Invocation :=
  .shell (appleScriptCommand script)

example : JXAExecutor.parseResponse (fun _ => none) "  " =
    .error .emptyResponse := rfl
example :
    JXAExecutor.parseResponse
      (fun _ => some (.obj [("success", .bool true), ("data", .num 3)])) "x" =
    .ok (some (.num 3)) := rfl
example :
    appleScriptCommand "ab" = ⟨"osascript -e ".data ++ ['\'', 'a', 'b', '\'']⟩ := by
  decide

/-! ## AppleScriptSanitizer (src/server/utils.js lines 172-199)

`sanitizeString` chains five global regex replaces in a fixed order; each
single-character pattern is a character-wise expansion, and the two-character
pattern `\r?\n` gets its own recursion.  `buildScript` substitutes
`\x7b\x7bkey\x7d\x7d` placeholders with the sanitised value; JS
`String.prototype.replace` with a string replacement interprets `$`-sequences
(`$$`, `$&`, `` $` ``, `$'`), which the model reproduces. -/

/-- Pass 1: `.replace(/\\/g, '\\\\')`. -/
def escBackslash : List Char → List Char :=
  charExpand fun c => if c = '\\' then ['\\', '\\'] else [c]

/-- Pass 2: `.replace(/"/g, '\\"')`. -/
def escQuote : List Char → List Char :=
  charExpand fun c => if c = '"' then ['\\', '"'] else [c]

/-- Pass 3: `.replace(/'/g, "\\'")`. -/
def escApos : List Char → List Char :=
  charExpand fun c => if c = '\'' then ['\\', '\''] else [c]

/-- Pass 4: `.replace(/\r?\n/g, '\\n')` — CRLF and LF both become the
two-character sequence backslash-n; a lone CR is untouched. -/
def escNewline : List Char → List Char
  | '\r' :: '\n' :: rest => '\\' :: 'n' :: escNewline rest
  | '\n' :: rest => '\\' :: 'n' :: escNewline rest
  | c :: rest => c :: escNewline rest
  | [] => []

/-- Pass 5: `.replace(/\t/g, '\\t')`. -/
def escTab : List Char → List Char :=
  charExpand fun c => if c = '\t' then ['\\', 't'] else [c]

/-- `AppleScriptSanitizer.sanitizeString` on character lists. -/
def sanitizeChars (l : List Char) : List Char :=
  escTab (escNewline (escApos (escQuote (escBackslash l))))

namespace AppleScriptSanitizer

/-- `AppleScriptSanitizer.sanitizeString` (string-typed values; the
non-string branch returns `''` and is outside the typed model). -/
def sanitizeString (s : String) : String := ⟨sanitizeChars s.data⟩

end AppleScriptSanitizer

/-- `GetSubstitution` of JS `String.prototype.replace` for a string
replacement and a group-free pattern: `$$`, `$&`, `` $` `` and `$'` are
interpreted; any other `$`-sequence stays literal. -/
def expandSub (matched before after : List Char) : List Char → List Char
  | [] => []
  | '$' :: '$' :: rest => '$' :: expandSub matched before after rest
  | '$' :: '&' :: rest => matched ++ expandSub matched before after rest
  | '$' :: '`' :: rest => before ++ expandSub matched before after rest
  | '$' :: '\'' :: rest => after ++ expandSub matched before after rest
  | c :: rest => c :: expandSub matched before after rest

/-- One global replace pass: scan left to right, substituting every
non-overlapping occurrence of `pat`; `before` is the already-scanned prefix of
the original string (the value of `` $` ``).  Fuel bounds the recursion; the
wrapper supplies enough for the scan to finish. -/
def replaceAllGo (pat rep : List Char) : Nat → List Char → List Char → List Char
  | 0, _, s => s
  | _, _, [] => []
  | fuel + 1, before, c :: rest =>
    if pat.isPrefixOf (c :: rest) then
      let after := List.drop pat.length (c :: rest)
      expandSub pat before after rep ++ replaceAllGo pat rep fuel (before ++ pat) after
    else
      c :: replaceAllGo pat rep fuel (before ++ [c]) rest

/-- JS `s.replace(new RegExp(pat, 'g'), rep)` for a literal pattern. -/
def replaceAllExpand (s pat rep : List Char) : List Char :=
  replaceAllGo pat rep (s.length + 1) [] s

namespace AppleScriptSanitizer

/-- `AppleScriptSanitizer.buildScript`: fold over the parameter entries in
insertion order, replacing every `\x7b\x7bkey\x7d\x7d` occurrence with the
sanitised value. -/
def buildScript (template : String) (params : List (String × String)) : String :=
  params.foldl
    (fun script kv =>
      let pat := ('\x7b' :: '\x7b' :: kv.1.data) ++ ['\x7d', '\x7d']
      let rep := sanitizeChars kv.2.data
      (⟨replaceAllExpand script.data pat rep⟩ : String))
    template

end AppleScriptSanitizer

/-- Modelled from the spec: the destination format's unescape rules
(AppleScript string-literal escapes).  A backslash followed by `n`, `t` or `r`
decodes to the control character; a backslash followed by anything else decodes
to that character (covering `\\`, `\"` and `\'`). -/
def asUnescape : List Char → List Char
  | '\\' :: c :: rest =>
    (if c = 'n' then '\n' else if c = 't' then '\t'
     else if c = 'r' then '\r' else c) :: asUnescape rest
  | c :: rest => c :: asUnescape rest
  | [] => []

example :
    AppleScriptSanitizer.sanitizeString "a\"b\\c\nd" = "a\\\"b\\\\c\\nd" := by
  decide
example :
    AppleScriptSanitizer.buildScript "name: \"\x7b\x7bk\x7d\x7d\"" [("k", "x\"y")] =
      "name: \"x\\\"y\"" := by decide
example : asUnescape "a\\\"b\\\\c\\nd".data = "a\"b\\c\nd".data := by decide

/-! ## ThingsValidator and DateConverter (src/server/utils.js lines 3-139)

Date strings are validated by the strict `^\d{4}-\d{2}-\d{2}$` regex and then
by `new Date(...)`: for a strict `YYYY-MM-DD` string the JS `Date` constructor
accepts exactly the real proleptic-Gregorian calendar dates (month 1-12, day
within the month, leap years by the 4/100/400 rule), which `jsDateValid`
models. -/

/-- Decimal digit test (`\d`). -/
def isDigitCh (c : Char) : Bool := 48 ≤ c.toNat && c.toNat ≤ 57

/-- Numeric value of a digit character. -/
def digitVal (c : Char) : Nat := c.toNat - 48

/-- The ten digit characters. -/
def d10 : Nat → Char
  | 0 => '0'
  | 1 => '1'
  | 2 => '2'
  | 3 => '3'
  | 4 => '4'
  | 5 => '5'
  | 6 => '6'
  | 7 => '7'
  | 8 => '8'
  | _ => '9'

/-- Last decimal digit of `n`, as a character. -/
def digitChar (n : Nat) : Char := d10 (n % 10)

/-- Zero-padded four-digit rendering (years). -/
def pad4 (n : Nat) : List Char :=
  [digitChar (n / 1000), digitChar (n / 100), digitChar (n / 10), digitChar n]

/-- Zero-padded two-digit rendering (months, days). -/
def pad2 (n : Nat) : List Char := [digitChar (n / 10), digitChar n]

/-- The strict `YYYY-MM-DD` rendering of a calendar date. -/
def fmtDate (y m d : Nat) : String :=
  ⟨pad4 y ++ '-' :: (pad2 m ++ '-' :: pad2 d)⟩

/-- Gregorian leap-year rule (as used by the JS `Date`). -/
def isLeap (y : Nat) : Bool := (y % 4 = 0 && y % 100 ≠ 0) || y % 400 = 0

/-- Days in a month of the Gregorian calendar. -/
def daysInMonth (y m : Nat) : Nat :=
  if m = 2 then (if isLeap y then 29 else 28)
  else if m = 4 || m = 6 || m = 9 || m = 11 then 30
  else 31

/-- The `^\d{4}-\d{2}-\d{2}$` regex of `validateDateInput` and
`toAppleScriptDate`. -/
def dateFormatOk (l : List Char) : Bool :=
  match l with
  | [a, b, c, d, h1, e, f, h2, g, k] =>
    isDigitCh a && isDigitCh b && isDigitCh c && isDigitCh d && h1 = '-' &&
      isDigitCh e && isDigitCh f && h2 = '-' && isDigitCh g && isDigitCh k
  | _ => false

/-- Year, month and day fields of a well-formed `YYYY-MM-DD` string. -/
def parseYMD (l : List Char) : Nat × Nat × Nat :=
  match l with
  | [a, b, c, d, _, e, f, _, g, k] =>
    (1000 * digitVal a + 100 * digitVal b + 10 * digitVal c + digitVal d,
     10 * digitVal e + digitVal f,
     10 * digitVal g + digitVal k)
  | _ => (0, 0, 0)

/-- Whether the three fields denote a real calendar date. -/
def isRealDate (y m d : Nat) : Bool :=
  1 ≤ m && m ≤ 12 && 1 ≤ d && d ≤ daysInMonth y m

/-- `!isNaN(new Date(input).getTime())` for a strict `YYYY-MM-DD` input. -/
def jsDateValid (l : List Char) : Bool :=
  isRealDate (parseYMD l).1 (parseYMD l).2.1 (parseYMD l).2.2

namespace ThingsValidator

/-- `ThingsValidator.validateStringInput` (src/server/utils.js lines 4-35).
The `typeof` guard is outside the typed model; the three remaining checks are
emptiness, the length cap, and the quote/apostrophe/backslash rejection; the
accepted value is returned trimmed. -/
def validateStringInput (input fieldName : String) (maxLength : Nat) :
    Except String String :=
  if input.data.length = 0 then .error (fieldName ++ " cannot be empty")
  else if input.data.length > maxLength then
    .error (fieldName ++ " cannot exceed " ++ toString maxLength ++ " characters")
  else if input.data.contains '"' || input.data.contains '\'' ||
      input.data.contains '\\' then
    .error (fieldName ++ " contains invalid characters")
  else .ok (trimS input)

/-- `ThingsValidator.validateDateInput` (src/server/utils.js lines 55-80):
regex check, then JS `Date` validity; the accepted string is returned
unchanged. -/
def validateDateInput (input fieldName : String) : Except String String :=
  if !dateFormatOk input.data then
    .error (fieldName ++ " must be in YYYY-MM-DD format")
  else if !jsDateValid input.data then
    .error (fieldName ++ " is not a valid date")
  else .ok input

end ThingsValidator

/-- The English month names of `DateConverter`. -/
def monthNames : List String :=
  ["January", "February", "March", "April", "May", "June",
   "July", "August", "September", "October", "November", "December"]

/-- `months[date.getMonth()]` for month number `m` (1-based). -/
def monthName (m : Nat) : String := monthNames.getD (m - 1) ""

namespace DateConverter

/-- `DateConverter.toAppleScriptDate` (src/server/utils.js lines 105-139):
non-empty check, strict format check, JS `Date` validity, then the verbose
`Month D, Year` rendering guarded by the 1904-2040 AppleScript year range. -/
def toAppleScriptDate (isoDate : String) : Except String String :=
  if isoDate = "" then .error "Date must be a non-empty string"
  else if !dateFormatOk isoDate.data then
    .error "Date must be in YYYY-MM-DD format"
  else if !jsDateValid isoDate.data then
    .error ("Invalid date: " ++ isoDate)
  else
    let y := (parseYMD isoDate.data).1
    let m := (parseYMD isoDate.data).2.1
    let d := (parseYMD isoDate.data).2.2
    if y < 1904 || 2040 < y then
      .error ("Year " ++ toString y ++
        " is outside AppleScript's supported range (1904-2040)")
    else .ok (monthName m ++ " " ++ toString d ++ ", " ++ toString y)

end DateConverter

example :
    ThingsValidator.validateDateInput "2025-07-17" "when" = .ok "2025-07-17" := rfl
example :
    ThingsValidator.validateDateInput "2025-02-30" "when" =
      .error "when is not a valid date" := rfl
example :
    DateConverter.toAppleScriptDate "2025-07-17" = .ok "July 17, 2025" := rfl
example : (DateConverter.toAppleScriptDate "1900-01-01").isOk = false := by decide
example : fmtDate 2025 7 17 = "2025-07-17" := by decide

/-! ## AppleScriptTemplates.updateTodo and ParameterBuilder
(src/server/applescript-templates.js lines 201-269, src/server/utils.js lines
142-170)

Template text is reproduced verbatim; braces are written `\x7b`/`\x7d`.
Optional JS arguments are `Option` fields, and the JS truthiness test used by
each `if (field)` guard treats the empty string as absent. -/

/-- JS truthiness of an optional string argument. -/
def jsTruthyStr (o : Option String) : Bool := (o.getD "") ≠ ""

/-- The parameter object destructured by `AppleScriptTemplates.updateTodo`. -/
structure UpdateTodoParams where
  name : Option String
  new_name : Option String
  notes : Option String
  due_date : Option String
  activation_date : Option String
  project : Option String
  area : Option String
  tags : List String

/-- `tags.map((_, index) => `"\x7b\x7btag_${index}\x7d\x7d"`).join(", ")`. -/
def tagPlaceholders (tags : List String) : String :=
  String.intercalate ", "
    (tags.enum.map fun it => "\"\x7b\x7btag_" ++ toString it.1 ++ "\x7d\x7d\"")

namespace AppleScriptTemplates

/-- `AppleScriptTemplates.updateTodo`: the update-by-name template, built by
string concatenation guarded by field truthiness, exactly as in the source. -/
def updateTodo (p : UpdateTodoParams) : String :=
  let s := "tell application \"Things3\"\n      try\n        set targetTodo to first to do whose name is \"\x7b\x7bname\x7d\x7d\""
  let s := if jsTruthyStr p.new_name then
      s ++ "\n        set name of targetTodo to \"\x7b\x7bnew_name\x7d\x7d\""
    else s
  let s := if jsTruthyStr p.notes then
      s ++ "\n        set notes of targetTodo to \"\x7b\x7bnotes\x7d\x7d\""
    else s
  let s := if jsTruthyStr p.due_date then
      s ++ "\n        set due date of targetTodo to date \"\x7b\x7bdue_date_formatted\x7d\x7d\""
    else s
  let s := if jsTruthyStr p.activation_date then
      s ++ "\n        set activation date of targetTodo to date \"\x7b\x7bactivation_date_formatted\x7d\x7d\""
    else s
  let s := if !p.tags.isEmpty then
      s ++ "\n        try\n          set tag names of targetTodo to \x7b" ++
        tagPlaceholders p.tags ++
        "\x7d\n        on error\n          -- Tags assignment failed, continue without tags\n        end try"
    else s
  let s := if jsTruthyStr p.project then
      s ++ "\n        try\n          set targetProject to first project whose name is \"\x7b\x7bproject\x7d\x7d\"\n          move targetTodo to targetProject\n        on error\n          -- Project not found, leave todo in current location\n        end try"
    else if jsTruthyStr p.area then
      s ++ "\n        try\n          set targetArea to first area whose name is \"\x7b\x7barea\x7d\x7d\"\n          move targetTodo to targetArea\n        on error\n          -- Area not found, leave todo in current location\n        end try"
    else s
  s ++ "\n        return \"updated\"\n      on error\n        return \"not_found\"\n      end try\n    end tell"

end AppleScriptTemplates

namespace ParameterBuilder

/-- `ParameterBuilder.buildParameters(baseParams, tags, dueDate)`
(src/server/utils.js lines 142-170): spread the base entries, append one
`tag_i` entry per tag, then append `due_date_formatted` when a due date is
given; a date-conversion failure becomes an `Invalid due date` error. -/
def buildParameters (baseParams : List (String × String))
    (tags : Option (List String)) (dueDate : Option String) :
    Except String (List (String × String)) :=
  let bp := baseParams
  let bp := match tags with
    | some ts => bp ++ (ts.enum.map fun it => ("tag_" ++ toString it.1, it.2))
    | none => bp
  if jsTruthyStr dueDate then
    match DateConverter.toAppleScriptDate (dueDate.getD "") with
    | .ok f => .ok (bp ++ [("due_date_formatted", f)])
    | .error e => .error ("Invalid due date: " ++ e)
  else .ok bp

end ParameterBuilder

/-! ## JXA utilities and TodoOperations
(src/unnamed/part_013 and src/unnamed/part_014)

The external application state touched by an update is the target item itself,
modelled as an explicit record threaded through the operations; the
`things.schedule(item, {for: date})` effect becomes a field update.  Date
values constructed by `parseLocalDate` are retained as their source strings:
only their presence or absence matters to the claims. -/

/-- Comma-space join (`Array.prototype.join(', ')`). -/
def joinCS : List (List Char) → List Char
  | [] => []
  | [x] => x
  | x :: y :: rest => x ++ ',' :: ' ' :: joinCS (y :: rest)

/-- `formatTags` (src/unnamed/part_013 lines 56-61): non-array/empty input
gives `''`, otherwise `tags.join(', ')`. -/
def formatTags (tags : List String) : String :=
  if tags.isEmpty then "" else ⟨joinCS (tags.map String.data)⟩

/-- `parseTags` (src/unnamed/part_013 lines 66-71): falsy input gives `[]`,
otherwise split on commas, trim each piece, and drop empties. -/
def parseTags (tagString : String) : List String :=
  if tagString = "" then []
  else
    (((splitCh ',' tagString.data).map trimChars).filter fun l => l ≠ []).map
      fun l => (⟨l⟩ : String)

/-- The mutable item state visible to `TodoOperations.update`. -/
structure ThingsTodo where
  name : String
  notes : String
  tagNames : String
  status : String
  activationDate : Option String
  dueDate : Option String
deriving DecidableEq

/-- `things.schedule(item, {for: d})`: the external schedule command sets the
item's activation date. -/
def thingsSchedule (t : ThingsTodo) (d : Option String) : ThingsTodo :=
  { t with activationDate := d }

/-- `scheduleItem` (src/unnamed/part_013 lines 39-51): no-op on a falsy date
string, otherwise schedule the parsed date. -/
def scheduleItem (t : ThingsTodo) (dateString : String) : ThingsTodo :=
  if dateString = "" then t else thingsSchedule t (some dateString)

/-- The caller-supplied field set of `TodoOperations.update`; `none` models a
field absent from the JS `params` object (`=== undefined`). -/
structure UpdateParams where
  name : Option String
  notes : Option String
  tags : Option (List String)
  completed : Option Bool
  canceled : Option Bool
  activation_date : Option String
  due_date : Option String

namespace TodoOperations

/-- The mutation body of `TodoOperations.update` (src/unnamed/part_014 lines
119-158), acting on the item found by the `byId` lookup: each `!== undefined`
guard becomes an `Option` match, `completed === true` an equality test on
`some true`, and the clear-activation branch schedules a far-future date and
then `schedule(..., {for: null})`. -/
def update (p : UpdateParams) (todo : ThingsTodo) : ThingsTodo :=
  let todo := match p.name with
    | some v => { todo with name := v }
    | none => todo
  let todo := match p.notes with
    | some v => { todo with notes := v }
    | none => todo
  let todo := match p.tags with
    | some l => { todo with tagNames := formatTags l }
    | none => todo
  let todo := if p.completed = some true then { todo with status := "completed" }
    else if p.canceled = some true then { todo with status := "canceled" }
    else todo
  let todo := match p.activation_date with
    | some d =>
      if d ≠ "" then scheduleItem todo d
      else thingsSchedule (scheduleItem todo "2099-12-31") none
    | none => todo
  let todo := match p.due_date with
    | some d => { todo with dueDate := if d ≠ "" then some d else none }
    | none => todo
  todo

end TodoOperations

example : formatTags ["a", "b"] = "a, b" := by decide
example : parseTags "a, b" = ["a", "b"] := by decide
example : parseTags (formatTags [""]) = [] := by decide

/-! ## Lemmas about the split primitive -/

theorem splitCh_ne_nil (sep : Char) (l : List Char) : splitCh sep l ≠ [] := by
  induction l with
  | nil => simp [splitCh]
  | cons c rest ih =>
    obtain ⟨h, t, e⟩ := List.exists_cons_of_ne_nil ih
    simp only [splitCh, e]
    split <;> simp

theorem splitCh_no_sep (sep : Char) (l : List Char) (h : sep ∉ l) :
    splitCh sep l = [l] := by
  induction l with
  | nil => rfl
  | cons c rest ih =>
    have hc : c ≠ sep := fun e => h (e ▸ List.mem_cons_self c rest)
    have hr : sep ∉ rest := fun e => h (List.mem_cons_of_mem _ e)
    simp [splitCh, ih hr, hc]

theorem splitCh_append_sep (sep : Char) (xs ys : List Char) (h : sep ∉ xs) :
    splitCh sep (xs ++ sep :: ys) = xs :: splitCh sep ys := by
  induction xs with
  | nil =>
    obtain ⟨hh, t, e⟩ := List.exists_cons_of_ne_nil (splitCh_ne_nil sep ys)
    simp [splitCh, e]
  | cons x xs ih =>
    have hx : x ≠ sep := fun e => h (e ▸ List.mem_cons_self x xs)
    have hxs : sep ∉ xs := fun e => h (List.mem_cons_of_mem _ e)
    simp [splitCh, ih hxs, hx]

/-! ## C7: short positional lines get defaulted trailing fields -/

/-- A six-column tab-delimited line. -/
def tabJoin6 (f0 f1 f2 f3 f4 f5 : String) : List Char :=
  f0.data ++ '\t' :: (f1.data ++ '\t' :: (f2.data ++ '\t' ::
    (f3.data ++ '\t' :: (f4.data ++ '\t' :: f5.data))))

/-- C7: in positional delimited decoding a short line does not fail: a
6-column line decoded against the 9-column project schema yields an object
whose area defaults to the empty string, whose todo count defaults to 0 via
the parse-failure fallback, and whose tag list defaults to empty, while the
six present columns map by position. -/
theorem short_line_defaults (f0 f1 f2 f3 f4 f5 : String)
    (h0 : '\t' ∉ f0.data ∧ '\n' ∉ f0.data)
    (h1 : '\t' ∉ f1.data ∧ '\n' ∉ f1.data)
    (h2 : '\t' ∉ f2.data ∧ '\n' ∉ f2.data)
    (h3 : '\t' ∉ f3.data ∧ '\n' ∉ f3.data)
    (h4 : '\t' ∉ f4.data ∧ '\n' ∉ f4.data)
    (h5 : '\t' ∉ f5.data ∧ '\n' ∉ f5.data)
    (htrim : trimChars (tabJoin6 f0 f1 f2 f3 f4 f5) = tabJoin6 f0 f1 f2 f3 f4 f5)
    (hne : tabJoin6 f0 f1 f2 f3 f4 f5 ≠ []) :
    DataParser.parseProjects ⟨tabJoin6 f0 f1 f2 f3 f4 f5⟩ =
      [{ id := f0, name := f1, notes := f2, due_date := f3, status := f4,
         creation_date := f5, area := "", todo_count := 0, tags := [] }] := by
  have hnl : '\n' ∉ tabJoin6 f0 f1 f2 f3 f4 f5 := by
    simp only [tabJoin6, List.mem_append, List.mem_cons]
    rintro (h | h | h | h | h | h | h | h | h | h | h)
    · exact h0.2 h
    · exact absurd h (by decide)
    · exact h1.2 h
    · exact absurd h (by decide)
    · exact h2.2 h
    · exact absurd h (by decide)
    · exact h3.2 h
    · exact absurd h (by decide)
    · exact h4.2 h
    · exact absurd h (by decide)
    · exact h5.2 h
  have hsplit : splitCh '\t' (tabJoin6 f0 f1 f2 f3 f4 f5) =
      [f0.data, f1.data, f2.data, f3.data, f4.data, f5.data] := by
    unfold tabJoin6
    rw [splitCh_append_sep _ _ _ h0.1, splitCh_append_sep _ _ _ h1.1,
      splitCh_append_sep _ _ _ h2.1, splitCh_append_sep _ _ _ h3.1,
      splitCh_append_sep _ _ _ h4.1, splitCh_no_sep _ _ h5.1]
  have hlines : dataLines ⟨tabJoin6 f0 f1 f2 f3 f4 f5⟩ =
      [tabJoin6 f0 f1 f2 f3 f4 f5] := by
    unfold dataLines
    simp only [htrim]
    rw [if_neg hne, splitCh_no_sep _ _ hnl]
    simp [htrim, hne]
  unfold DataParser.parseProjects
  rw [hlines]
  simp only [List.map_cons, List.map_nil, DataParser.projectOfLine, hsplit]
  simp [getPart, getTagsPart, jsParseIntOr0, trimLeftChars]

/-- Witness for C7 at a concrete six-column line. -/
theorem short_line_defaults_witness :
    DataParser.parseProjects
        ⟨tabJoin6 "p1" "Proj" "some notes" "2025-01-02" "open" "2024-12-31"⟩ =
      [{ id := "p1", name := "Proj", notes := "some notes",
         due_date := "2025-01-02", status := "open",
         creation_date := "2024-12-31", area := "", todo_count := 0,
         tags := [] }] :=
  short_line_defaults "p1" "Proj" "some notes" "2025-01-02" "open" "2024-12-31"
    (by decide) (by decide) (by decide) (by decide) (by decide) (by decide)
    (by decide) (by decide)

/-! ## C3: decoding the empty string -/

/-- C3 counterexample: the claim says decoding the empty string yields an
empty list and does not raise an error in both decode paths, but the JSON
envelope decoder `parseResponse` raises its `Empty response from JXA script`
error on empty output. -/
theorem parse_response_empty_raises :
    JXAExecutor.parseResponse (fun _ => none) "" = .error .emptyResponse := rfl

/-- C3 (amended): decoding the empty string yields an empty record list and no
error in the three positional decoders, while the JSON envelope decoder
`parseResponse` instead raises the dedicated empty-response error, whatever
the JSON parser would do. -/
theorem decode_empty_amended :
    DataParser.parseTodos "" = [] ∧ DataParser.parseProjects "" = [] ∧
    DataParser.parseAreas "" = [] ∧
    ∀ parse : String → Option Json,
      JXAExecutor.parseResponse parse "" = .error .emptyResponse :=
  ⟨rfl, rfl, rfl, fun _ => rfl⟩

/-! ## C6: the JSON envelope dispatch of parseResponse -/

/-- C6: on non-empty output, `parseResponse` parses the whole output as one
JSON value and dispatches on the `success` field: `success === false` raises
the embedded error message, `success === true` returns the embedded `data`
value, an absent `success` key returns the whole parsed value as legacy-format
data, and a parse failure on non-empty output raises the invalid-JSON decode
error rather than being treated as empty. -/
theorem parse_response_envelope_dispatch (parse : String → Option Json)
    (s : String) (v : Json) (hne : trimS s ≠ "") :
    (parse (trimS s) = some v → getField v "success" = some (.bool false) →
      JXAExecutor.parseResponse parse s = .error (.jxaFailure (jxaErrMsg v))) ∧
    (parse (trimS s) = some v → getField v "success" = some (.bool true) →
      JXAExecutor.parseResponse parse s = .ok (getField v "data")) ∧
    (parse (trimS s) = some v → getField v "success" = none →
      JXAExecutor.parseResponse parse s = .ok (some v)) ∧
    (parse (trimS s) = none →
      JXAExecutor.parseResponse parse s = .error .invalidJson) := by
  refine ⟨fun hp hs => ?_, fun hp hs => ?_, fun hp hs => ?_, fun hp => ?_⟩
  · simp [JXAExecutor.parseResponse, hne, hp, hs]
  · simp [JXAExecutor.parseResponse, hne, hp, hs]
  · simp [JXAExecutor.parseResponse, hne, hp, hs]
  · simp [JXAExecutor.parseResponse, hne, hp]

/-- Witness for C6: a concrete failure envelope raises the embedded message. -/
theorem parse_response_envelope_dispatch_witness :
    JXAExecutor.parseResponse
        (fun _ => some (Json.obj [("success", Json.bool false),
          ("error", Json.obj [("message", Json.str "boom")])])) "out" =
      .error (.jxaFailure (Json.str "boom")) :=
  (parse_response_envelope_dispatch
      (fun _ => some (Json.obj [("success", Json.bool false),
        ("error", Json.obj [("message", Json.str "boom")])])) "out"
      (Json.obj [("success", Json.bool false),
        ("error", Json.obj [("message", Json.str "boom")])])
      (by decide)).1 rfl rfl

/-! ## C2: invocation discipline of the execution engine -/

/-- C2 counterexample: the claim says the interpreter is never invoked through
a shell command string, but `ThingsExtension.executeAppleScript` concatenates
the script into one `osascript -e '...'` shell command line. -/
theorem applescript_shell_concatenation :
    executeAppleScriptInvocation "tell application \"Things3\" to return 1" =
      .shell ⟨"osascript -e ".data ++ '\'' ::
        ("tell application \"Things3\" to return 1".data ++ ['\''])⟩ ∧
    (executeAppleScriptInvocation
        "tell application \"Things3\" to return 1").isArgv = false := by
  constructor
  · decide
  · decide

/-- C2 (amended): the JXA execution engine (`JXAExecutor.executeScript`)
invokes osascript with a discrete argument array carrying the script text and
the JSON-serialised parameter blob as separate argv entries, while the legacy
AppleScript path (`ThingsExtension.executeAppleScript`) instead concatenates
the single-quote-escaped script into a shell command string. -/
theorem invocation_discipline_amended (script : String) (params : Json) :
    JXAExecutor.executeScriptInvocation script params =
      .argv "osascript" ["-l", "JavaScript", "-e", script, jsonStringify params] ∧
    (JXAExecutor.executeScriptInvocation script params).isArgv = true ∧
    executeAppleScriptInvocation script = .shell (appleScriptCommand script) ∧
    (executeAppleScriptInvocation script).isArgv = false :=
  ⟨rfl, rfl, rfl, rfl⟩

/-! ## C5: the validator and quote characters -/

/-- C5: the claim (and src/test/validation.test.js test 2) says the validator
never rejects a value merely for containing a quote or apostrophe, but
`ThingsValidator.validateStringInput` rejects exactly those characters: a
short, otherwise-clean title containing double quotes is refused with the
`contains invalid characters` error, while the same title without quotes
passes. -/
theorem validator_rejects_quoted_string :
    ThingsValidator.validateStringInput "Review \"Clean Code\" book" "name" 1000 =
      .error "name contains invalid characters" ∧
    ThingsValidator.validateStringInput "Review Clean Code book" "name" 1000 =
      .ok "Review Clean Code book" :=
  ⟨rfl, rfl⟩

/-! ## C4: scheduling an update's work-on date -/

/-- Modelled from the spec: `ParameterMapper.validateAndMapParameters` is not
among the source files (only its tests and callers are).  Per the spec's
field-name mapping table the caller-facing work-on date field `when` is
renamed to the internal activation field, the item identifier passes through,
validated values are kept unchanged, and absent fields are dropped. -/
def validateAndMapWhen (id whenDate : String) : List (String × String) :=
  [("id", id), ("activation_date", whenDate)]

/-- The destructured template parameters corresponding to a mapped
`(id, when)` update request: only the activation date is present. -/
def updateTodoParamsOfWhen (whenDate : String) : UpdateTodoParams :=
  { name := none, new_name := none, notes := none, due_date := none,
    activation_date := some whenDate, project := none, area := none,
    tags := [] }

set_option maxRecDepth 200000 in
/-- C4: for the update input with `when = 2025-07-17` the claim (and
src/test/applescript-schedule.test.js) requires a rendered schedule command
referencing `July 17, 2025` and no direct activation-date assignment; the
code renders the opposite: the script produced by the update pipeline
(template, parameter building, placeholder substitution) contains the direct
`set activation date of targetTodo to date` property assignment and contains
neither a schedule command nor the converted date `July 17, 2025`. -/
theorem update_when_renders_direct_assignment :
    ParameterBuilder.buildParameters
        (validateAndMapWhen "test-todo-123" "2025-07-17") none none =
      .ok (validateAndMapWhen "test-todo-123" "2025-07-17") ∧
    containsSub "set activation date of targetTodo to date".data
      (AppleScriptSanitizer.buildScript
        (AppleScriptTemplates.updateTodo (updateTodoParamsOfWhen "2025-07-17"))
        (validateAndMapWhen "test-todo-123" "2025-07-17")).data = true ∧
    containsSub "schedule".data
      (AppleScriptSanitizer.buildScript
        (AppleScriptTemplates.updateTodo (updateTodoParamsOfWhen "2025-07-17"))
        (validateAndMapWhen "test-todo-123" "2025-07-17")).data = false ∧
    containsSub "July 17, 2025".data
      (AppleScriptSanitizer.buildScript
        (AppleScriptTemplates.updateTodo (updateTodoParamsOfWhen "2025-07-17"))
        (validateAndMapWhen "test-todo-123" "2025-07-17")).data = false := by
  refine ⟨rfl, ?_, ?_, ?_⟩
  · decide
  · decide
  · decide

/-! ## C10: absent vs. empty tags in the update operation -/

theorem update_proj_name (p : UpdateParams) (t : ThingsTodo) :
    (TodoOperations.update p t).name =
      (match p.name with | some v => v | none => t.name) := by
  unfold TodoOperations.update scheduleItem thingsSchedule
  repeat' split
  all_goals rfl

theorem update_proj_notes (p : UpdateParams) (t : ThingsTodo) :
    (TodoOperations.update p t).notes =
      (match p.notes with | some v => v | none => t.notes) := by
  unfold TodoOperations.update scheduleItem thingsSchedule
  repeat' split
  all_goals rfl

theorem update_proj_tagNames (p : UpdateParams) (t : ThingsTodo) :
    (TodoOperations.update p t).tagNames =
      (match p.tags with | some l => formatTags l | none => t.tagNames) := by
  unfold TodoOperations.update scheduleItem thingsSchedule
  repeat' split
  all_goals rfl

theorem update_proj_status (p : UpdateParams) (t : ThingsTodo) :
    (TodoOperations.update p t).status =
      (if p.completed = some true then "completed"
       else if p.canceled = some true then "canceled" else t.status) := by
  unfold TodoOperations.update scheduleItem thingsSchedule
  repeat' split
  all_goals rfl

theorem update_proj_activationDate (p : UpdateParams) (t : ThingsTodo)
    (h : p.activation_date = none) :
    (TodoOperations.update p t).activationDate = t.activationDate := by
  unfold TodoOperations.update scheduleItem thingsSchedule
  rw [h]
  repeat' split
  all_goals rfl

theorem update_proj_dueDate (p : UpdateParams) (t : ThingsTodo) :
    (TodoOperations.update p t).dueDate =
      (match p.due_date with
       | some d => if d ≠ "" then some d else none
       | none => t.dueDate) := by
  unfold TodoOperations.update scheduleItem thingsSchedule
  repeat' split
  all_goals rfl

/-- C10: in `TodoOperations.update`, omitting the tags field leaves the item's
tag state untouched, while an explicit empty tags array sets `tagNames` to the
empty string, clearing all tags; and every field absent from the input keeps
its previous value (name, notes, status when neither completed nor canceled is
set, activation date, due date). -/
theorem update_tags_absent_vs_empty (p q : UpdateParams) (t : ThingsTodo)
    (hp : p.tags = none) (hq : q.tags = some []) :
    (TodoOperations.update p t).tagNames = t.tagNames ∧
    (TodoOperations.update q t).tagNames = "" ∧
    (p.name = none → (TodoOperations.update p t).name = t.name) ∧
    (p.notes = none → (TodoOperations.update p t).notes = t.notes) ∧
    (p.completed ≠ some true → p.canceled ≠ some true →
      (TodoOperations.update p t).status = t.status) ∧
    (p.activation_date = none →
      (TodoOperations.update p t).activationDate = t.activationDate) ∧
    (p.due_date = none → (TodoOperations.update p t).dueDate = t.dueDate) := by
  refine ⟨?_, ?_, ?_, ?_, ?_, ?_, ?_⟩
  · rw [update_proj_tagNames, hp]
  · rw [update_proj_tagNames, hq]; rfl
  · intro h; rw [update_proj_name, h]

  · intro h; rw [update_proj_notes, h]
  · intro h1 h2; rw [update_proj_status, if_neg h1, if_neg h2]
  · intro h; exact update_proj_activationDate p t h
  · intro h; rw [update_proj_dueDate, h]

/-- Witness for C10: a concrete item updated once with tags omitted and once
with an explicit empty tag list. -/
theorem update_tags_absent_vs_empty_witness :
    (TodoOperations.update
        { name := none, notes := none, tags := none, completed := none,
          canceled := none, activation_date := none, due_date := none }
        { name := "Buy milk", notes := "", tagNames := "a, b",
          status := "open", activationDate := none,
          dueDate := none }).tagNames = "a, b" ∧
    (TodoOperations.update
        { name := none, notes := none, tags := some [], completed := none,
          canceled := none, activation_date := none, due_date := none }
        { name := "Buy milk", notes := "", tagNames := "a, b",
          status := "open", activationDate := none,
          dueDate := none }).tagNames = "" := by
  have h := update_tags_absent_vs_empty
    { name := none, notes := none, tags := none, completed := none,
      canceled := none, activation_date := none, due_date := none }
    { name := none, notes := none, tags := some [], completed := none,
      canceled := none, activation_date := none, due_date := none }
    { name := "Buy milk", notes := "", tagNames := "a, b", status := "open",
      activationDate := none, dueDate := none } rfl rfl
  exact ⟨h.1, h.2.1⟩

/-! ## C9: tag list join/split round-trip -/

theorem trimChars_cons_space (l : List Char) :
    trimChars (' ' :: l) = trimChars l := by
  simp [trimChars, trimLeftChars, List.dropWhile, isWsChar]

theorem split_trim_joinCS (xs : List (List Char))
    (h : ∀ x ∈ xs, x ≠ [] ∧ ',' ∉ x ∧ trimChars x = x) :
    ((splitCh ',' (joinCS xs)).map trimChars).filter (fun l => l ≠ []) =
      xs := by
  induction xs with
  | nil => rfl
  | cons x rest ih =>
    obtain ⟨hxe, hxc, hxt⟩ := h x (List.mem_cons_self x rest)
    have hrest : ∀ y ∈ rest, y ≠ [] ∧ ',' ∉ y ∧ trimChars y = y :=
      fun y hy => h y (List.mem_cons_of_mem _ hy)
    cases rest with
    | nil =>
      rw [show joinCS [x] = x from rfl, splitCh_no_sep ',' x hxc]
      simp [hxt, hxe]
    | cons y rest2 =>
      obtain ⟨h0, t0, e0⟩ :=
        List.exists_cons_of_ne_nil (splitCh_ne_nil ',' (joinCS (y :: rest2)))
      have hspace : splitCh ',' (' ' :: joinCS (y :: rest2)) =
          (' ' :: h0) :: t0 := by
        simp [splitCh, e0]
      have hjoin : joinCS (x :: y :: rest2) =
          x ++ ',' :: ' ' :: joinCS (y :: rest2) := rfl
      rw [hjoin, splitCh_append_sep ',' x _ hxc, hspace]
      have ihr := ih hrest
      rw [e0] at ihr
      simp only [List.map_cons, trimChars_cons_space, hxt, List.filter_cons]
      simp only [List.map_cons, List.filter_cons] at ihr
      simp only [hxe, ne_eq, not_false_iff, if_true, decide_not]
      simp only [decide_eq_true_eq]
      simpa using ihr

/-- C9 counterexample: the tag list `[""]` has no element containing the join
separator, yet it does not round-trip: `parseTags (formatTags [""])` is `[]`,
because the parse side filters out empty pieces. -/
theorem tags_roundtrip_counterexample :
    containsSub ",".data "".data = false ∧
    parseTags (formatTags [""]) = [] ∧
    parseTags (formatTags [""]) ≠ [""] := by
  refine ⟨by decide, by decide, by decide⟩

/-- C9 (amended): for every tag list whose elements are non-empty, contain no
comma, and carry no surrounding whitespace (so that the parse side's
trim-and-drop-empties steps are the identity), splitting the joined string
recovers the original list: `parseTags (formatTags T) = T`. -/
theorem tags_roundtrip_amended (T : List String)
    (h : ∀ x ∈ T, x ≠ "" ∧ ',' ∉ x.data ∧ trimChars x.data = x.data) :
    parseTags (formatTags T) = T := by
  cases T with
  | nil => rfl
  | cons t rest =>
    obtain ⟨hte, htc, htt⟩ := h t (List.mem_cons_self t rest)
    have hdata : ∀ x ∈ (t :: rest).map String.data,
        x ≠ [] ∧ ',' ∉ x ∧ trimChars x = x := by
      intro x hx
      obtain ⟨s, hs, rfl⟩ := List.mem_map.mp hx
      obtain ⟨h1, h2, h3⟩ := h s hs
      refine ⟨fun e => h1 ?_, h2, h3⟩
      cases s
      simp_all
    have hne : joinCS ((t :: rest).map String.data) ≠ [] := by
      cases rest with
      | nil =>
        simpa [joinCS] using fun e => hte (by cases t; simp_all)
      | cons y r2 =>
        simp only [List.map_cons, joinCS]
        intro e
        rcases List.append_eq_nil.mp e with ⟨e1, e2⟩
        exact hte (by cases t; simp_all)
    have hform : formatTags (t :: rest) =
        ⟨joinCS ((t :: rest).map String.data)⟩ := rfl
    have hsne : (⟨joinCS ((t :: rest).map String.data)⟩ : String) ≠ "" := by
      intro e
      exact hne (congrArg String.data e)
    rw [hform]
    unfold parseTags
    rw [if_neg hsne]
    have hsplit := split_trim_joinCS ((t :: rest).map String.data) hdata
    have hdat : (⟨joinCS ((t :: rest).map String.data)⟩ : String).data =
        joinCS ((t :: rest).map String.data) := rfl
    rw [hdat, hsplit]
    have hmk : (fun l => (⟨l⟩ : String)) ∘ String.data = id :=
      funext fun s => rfl
    rw [List.map_map, hmk, List.map_id]

/-- Witness for C9 at a concrete separator-free tag list. -/
theorem tags_roundtrip_witness :
    parseTags (formatTags ["work", "urgent"]) = ["work", "urgent"] :=
  tags_roundtrip_amended ["work", "urgent"] (by decide)

/-! ## C8: date validation and verbose rendering -/

theorem digitVal_d10 (r : Nat) (h : r < 10) : digitVal (d10 r) = r := by
  interval_cases r <;> decide

theorem isDigitCh_d10 (r : Nat) (h : r < 10) : isDigitCh (d10 r) = true := by
  interval_cases r <;> decide

theorem digitVal_digitChar (n : Nat) : digitVal (digitChar n) = n % 10 :=
  digitVal_d10 (n % 10) (Nat.mod_lt _ (by decide))

theorem isDigitCh_digitChar (n : Nat) : isDigitCh (digitChar n) = true :=
  isDigitCh_d10 (n % 10) (Nat.mod_lt _ (by decide))

theorem parseYMD_fmtDate (y m d : Nat) (hy : y ≤ 9999) (hm : m ≤ 99)
    (hd : d ≤ 99) : parseYMD (fmtDate y m d).data = (y, m, d) := by
  have hdat : (fmtDate y m d).data =
      [digitChar (y / 1000), digitChar (y / 100), digitChar (y / 10),
       digitChar y, '-', digitChar (m / 10), digitChar m, '-',
       digitChar (d / 10), digitChar d] := rfl
  rw [hdat]
  unfold parseYMD
  simp only [digitVal_digitChar]
  refine Prod.ext ?_ (Prod.ext ?_ ?_)
  · simp only []
    omega
  · simp only []
    omega
  · simp only []
    omega

theorem dateFormatOk_fmtDate (y m d : Nat) :
    dateFormatOk (fmtDate y m d).data = true := by
  have hdat : (fmtDate y m d).data =
      [digitChar (y / 1000), digitChar (y / 100), digitChar (y / 10),
       digitChar y, '-', digitChar (m / 10), digitChar m, '-',
       digitChar (d / 10), digitChar d] := rfl
  rw [hdat]
  unfold dateFormatOk
  simp [isDigitCh_digitChar]

theorem daysInMonth_le_31 (y m : Nat) : daysInMonth y m ≤ 31 := by
  unfold daysInMonth
  repeat' split
  all_goals omega

/-- C8: every strict `YYYY-MM-DD` string denoting a real calendar date is
accepted by `validateDateInput` and returned unchanged; strings not matching
the format, and format-matching strings that are not real dates (such as
`2025-02-30`), are rejected; and for real dates, `toAppleScriptDate` returns
`MonthName Day, Year` with the correct English month name, day and year when
the year lies in 1904-2040, and throws outside that range. -/
theorem date_validate_and_render (y m d : Nat)
    (hy : y ≤ 9999) (hm1 : 1 ≤ m) (hm2 : m ≤ 12) (hd1 : 1 ≤ d)
    (hd2 : d ≤ daysInMonth y m) :
    ThingsValidator.validateDateInput (fmtDate y m d) "date" =
      .ok (fmtDate y m d) ∧
    (∀ s : String, dateFormatOk s.data = false →
      ThingsValidator.validateDateInput s "date" =
        .error "date must be in YYYY-MM-DD format") ∧
    (∀ s : String, dateFormatOk s.data = true → jsDateValid s.data = false →
      ThingsValidator.validateDateInput s "date" =
        .error "date is not a valid date") ∧
    (1904 ≤ y → y ≤ 2040 →
      DateConverter.toAppleScriptDate (fmtDate y m d) =
        .ok (monthName m ++ " " ++ toString d ++ ", " ++ toString y)) ∧
    (y < 1904 ∨ 2040 < y →
      (DateConverter.toAppleScriptDate (fmtDate y m d)).isOk = false) := by
  have hm99 : m ≤ 99 := le_trans hm2 (by omega)
  have hd99 : d ≤ 99 := le_trans hd2 (le_trans (daysInMonth_le_31 y m) (by omega))
  have hymd := parseYMD_fmtDate y m d hy hm99 hd99
  have hfmt := dateFormatOk_fmtDate y m d
  have hvalid : jsDateValid (fmtDate y m d).data = true := by
    unfold jsDateValid
    rw [hymd]
    simp only [isRealDate, Bool.and_eq_true, decide_eq_true_eq]
    exact ⟨⟨⟨hm1, hm2⟩, hd1⟩, hd2⟩
  have hnem : fmtDate y m d ≠ "" := by
    intro e
    have : (fmtDate y m d).data = [] := congrArg String.data e
    simp [fmtDate] at this
  refine ⟨?_, ?_, ?_, ?_, ?_⟩
  · unfold ThingsValidator.validateDateInput
    rw [hfmt, hvalid]
    rfl
  · intro s hs
    unfold ThingsValidator.validateDateInput
    rw [hs]
    rfl
  · intro s h1 h2
    unfold ThingsValidator.validateDateInput
    rw [h1, h2]
    rfl
  · intro hy1 hy2
    unfold DateConverter.toAppleScriptDate
    rw [if_neg hnem, hfmt, hvalid]
    simp only [Bool.not_true, if_false, hymd]
    have hc : (decide (y < 1904) || decide (2040 < y)) = false := by
      simp only [Bool.or_eq_false_iff, decide_eq_false_iff_not]
      omega
    rw [hc]
    simp
  · intro hrange
    unfold DateConverter.toAppleScriptDate
    rw [if_neg hnem, hfmt, hvalid]
    simp only [Bool.not_true, if_false, hymd]
    have hc : (decide (y < 1904) || decide (2040 < y)) = true := by
      simp only [Bool.or_eq_true, decide_eq_true_eq]
      omega
    rw [hc]
    simp
    rfl

/-- Witness for C8 at the concrete date 2025-07-17 (in range) and its
formatted rendering. -/
theorem date_validate_and_render_witness :
    ThingsValidator.validateDateInput "2025-07-17" "date" = .ok "2025-07-17" ∧
    DateConverter.toAppleScriptDate "2025-07-17" = .ok "July 17, 2025" := by
  have h := date_validate_and_render 2025 7 17 (by decide) (by decide)
    (by decide) (by decide) (by decide)
  have e : fmtDate 2025 7 17 = "2025-07-17" := by decide
  constructor
  · rw [← e]
    exact h.1
  · rw [← e]
    rw [h.2.2.2.1 (by decide) (by decide)]
    rfl

/-! ## C1: the sanitizer's escaping discipline -/

theorem charExpand_append (f : Char → List Char) (a b : List Char) :
    charExpand f (a ++ b) = charExpand f a ++ charExpand f b := by
  induction a with
  | nil => rfl
  | cons c a ih => simp [charExpand, ih]

theorem mem_charExpand (f : Char → List Char) (l : List Char) (a : Char)
    (h : a ∈ charExpand f l) : ∃ c ∈ l, a ∈ f c := by
  induction l with
  | nil => cases h
  | cons c l ih =>
    rcases List.mem_append.mp h with h1 | h2
    · exact ⟨c, List.mem_cons_self c l, h1⟩
    · obtain ⟨c2, hc2, ha⟩ := ih h2
      exact ⟨c2, List.mem_cons_of_mem _ hc2, ha⟩

theorem escNewline_cons_nl (l : List Char) :
    escNewline ('\n' :: l) = '\\' :: 'n' :: escNewline l := rfl

theorem escNewline_cons_ne (c : Char) (h1 : c ≠ '\n') (h2 : c ≠ '\r')
    (l : List Char) : escNewline (c :: l) = c :: escNewline l := by
  rw [escNewline.eq_def]
  split <;> simp_all

theorem escNewline_append (x y : List Char) (hx : '\r' ∉ x) :
    escNewline (x ++ y) = escNewline x ++ escNewline y := by
  induction x with
  | nil => rfl
  | cons a x ih =>
    have ha : a ≠ '\r' := fun e => hx (e ▸ List.mem_cons_self a x)
    have hx2 : '\r' ∉ x := fun e => hx (List.mem_cons_of_mem _ e)
    by_cases hn : a = '\n'
    · subst hn
      simp only [List.cons_append, escNewline_cons_nl, ih hx2]
    · simp only [List.cons_append, escNewline_cons_ne a hn ha, ih hx2]

/-- The combined per-character effect of the five sequential escape passes. -/
def encChar (c : Char) : List Char :=
  if c = '\\' then ['\\', '\\']
  else if c = '"' then ['\\', '"']
  else if c = '\'' then ['\\', '\'']
  else if c = '\n' then ['\\', 'n']
  else if c = '\t' then ['\\', 't']
  else [c]

/-- The first three (single-character) passes applied to one character. -/
def escA3 (c : Char) : List Char := escApos (escQuote (escBackslash [c]))

theorem escA3_no_cr (c : Char) (h : c ≠ '\r') : '\r' ∉ escA3 c := by
  by_cases h1 : c = '\\'
  · subst h1; decide
  · by_cases h2 : c = '"'
    · subst h2; decide
    · by_cases h3 : c = '\''
      · subst h3; decide
      · have : escA3 c = [c] := by
          simp [escA3, escBackslash, escQuote, escApos, charExpand, h1, h2, h3]
        rw [this]
        intro hm
        exact h ((List.mem_singleton.mp hm).symm)

theorem sanitizeChars_cons (c : Char) (l : List Char) (h : c ≠ '\r') :
    sanitizeChars (c :: l) = escTab (escNewline (escA3 c)) ++ sanitizeChars l := by
  unfold sanitizeChars
  have e1 : escBackslash (c :: l) =
      escBackslash [c] ++ escBackslash l := by
    simp [escBackslash, charExpand]
  rw [e1]
  rw [show escQuote (escBackslash [c] ++ escBackslash l) =
      escQuote (escBackslash [c]) ++ escQuote (escBackslash l) from
    charExpand_append _ _ _]
  rw [show escApos (escQuote (escBackslash [c]) ++ escQuote (escBackslash l)) =
      escA3 c ++ escApos (escQuote (escBackslash l)) from
    charExpand_append _ _ _]
  rw [escNewline_append _ _ (escA3_no_cr c h)]
  exact charExpand_append _ _ _

theorem sanitizeOne_eq_encChar (c : Char) (h : c ≠ '\r') :
    escTab (escNewline (escA3 c)) = encChar c := by
  by_cases h1 : c = '\\'
  · subst h1; decide
  · by_cases h2 : c = '"'
    · subst h2; decide
    · by_cases h3 : c = '\''
      · subst h3; decide
      · by_cases h4 : c = '\n'
        · subst h4; decide
        · by_cases h5 : c = '\t'
          · subst h5; decide
          · have e3 : escA3 c = [c] := by
              simp [escA3, escBackslash, escQuote, escApos, charExpand,
                h1, h2, h3]
            rw [e3, escNewline_cons_ne c h4 h,
              show escNewline [] = [] from rfl]
            simp [escTab, charExpand, encChar, h1, h2, h3, h4, h5]

theorem sanitizeChars_eq_encChar (l : List Char) (h : '\r' ∉ l) :
    sanitizeChars l = charExpand encChar l := by
  induction l with
  | nil => rfl
  | cons c l ih =>
    have hc : c ≠ '\r' := fun e => h (e ▸ List.mem_cons_self c l)
    have hl : '\r' ∉ l := fun e => h (List.mem_cons_of_mem _ e)
    rw [sanitizeChars_cons c l hc, sanitizeOne_eq_encChar c hc, ih hl]
    rfl

theorem asUnescape_cons_ne (c : Char) (h : c ≠ '\\') (l : List Char) :
    asUnescape (c :: l) = c :: asUnescape l := by
  rw [asUnescape.eq_def]
  split <;> simp_all

theorem asUnescape_encChar (l : List Char) :
    asUnescape (charExpand encChar l) = l := by
  induction l with
  | nil => rfl
  | cons c l ih =>
    show asUnescape (encChar c ++ charExpand encChar l) = c :: l
    by_cases h1 : c = '\\'
    · subst h1
      show asUnescape ('\\' :: '\\' :: charExpand encChar l) = _
      rw [show asUnescape ('\\' :: '\\' :: charExpand encChar l) =
        '\\' :: asUnescape (charExpand encChar l) from rfl, ih]
    · by_cases h2 : c = '"'
      · subst h2
        show asUnescape ('\\' :: '"' :: charExpand encChar l) = '"' :: l
        rw [show asUnescape ('\\' :: '"' :: charExpand encChar l) =
          '"' :: asUnescape (charExpand encChar l) from rfl, ih]
      · by_cases h3 : c = '\''
        · subst h3
          show asUnescape ('\\' :: '\'' :: charExpand encChar l) = '\'' :: l
          rw [show asUnescape ('\\' :: '\'' :: charExpand encChar l) =
            '\'' :: asUnescape (charExpand encChar l) from rfl, ih]
        · by_cases h4 : c = '\n'
          · subst h4
            show asUnescape ('\\' :: 'n' :: charExpand encChar l) = '\n' :: l
            rw [show asUnescape ('\\' :: 'n' :: charExpand encChar l) =
              '\n' :: asUnescape (charExpand encChar l) from rfl, ih]
          · by_cases h5 : c = '\t'
            · subst h5
              show asUnescape ('\\' :: 't' :: charExpand encChar l) = '\t' :: l
              rw [show asUnescape ('\\' :: 't' :: charExpand encChar l) =
                '\t' :: asUnescape (charExpand encChar l) from rfl, ih]
            · have he : encChar c = [c] := by
                simp [encChar, h1, h2, h3, h4, h5]
              rw [he]
              show asUnescape (c :: charExpand encChar l) = c :: l
              rw [asUnescape_cons_ne c h1, ih]

theorem expandSub_cons_ne (matched before after : List Char) (c : Char)
    (h : c ≠ '$') (l : List Char) :
    expandSub matched before after (c :: l) =
      c :: expandSub matched before after l := by
  rw [expandSub.eq_def]
  split <;> simp_all

theorem expandSub_no_dollar (matched before after r : List Char)
    (h : '$' ∉ r) : expandSub matched before after r = r := by
  induction r with
  | nil => rfl
  | cons c r ih =>
    have hc : c ≠ '$' := fun e => h (e ▸ List.mem_cons_self c r)
    have hr : '$' ∉ r := fun e => h (List.mem_cons_of_mem _ e)
    rw [expandSub_cons_ne matched before after c hc, ih hr]

theorem dollar_encChar (c : Char) (h : '$' ∈ encChar c) : c = '$' := by
  by_cases h1 : c = '\\'
  · subst h1; exact absurd h (by decide)
  · by_cases h2 : c = '"'
    · subst h2
      rw [show encChar '"' = ['\\', '"'] from rfl] at h
      exact absurd h (by decide)
    · by_cases h3 : c = '\''
      · subst h3
        rw [show encChar '\'' = ['\\', '\''] from rfl] at h
        exact absurd h (by decide)
      · by_cases h4 : c = '\n'
        · subst h4
          rw [show encChar '\n' = ['\\', 'n'] from rfl] at h
          exact absurd h (by decide)
        · by_cases h5 : c = '\t'
          · subst h5
            rw [show encChar '\t' = ['\\', 't'] from rfl] at h
            exact absurd h (by decide)
          · have he : encChar c = [c] := by
              simp [encChar, h1, h2, h3, h4, h5]
            rw [he] at h
            exact (List.mem_singleton.mp h).symm

/-- C1 counterexample: `"\r\n"` contains a newline, yet the substituted
segment does not round-trip back to it: the sanitiser collapses CRLF to the
escaped newline token, which unescapes to a bare LF. -/
theorem sanitize_roundtrip_cr_counterexample :
    '\n' ∈ ("\r\n" : String).data ∧
    AppleScriptSanitizer.buildScript "\"\x7b\x7bk\x7d\x7d\"" [("k", "\r\n")] =
      "\"\\n\"" ∧
    asUnescape (AppleScriptSanitizer.sanitizeString "\r\n").data = "\n".data ∧
    ("\n" : String) ≠ "\r\n" := by
  refine ⟨by decide, by decide, by decide, by decide⟩

/-- C1 (amended): for every input string containing the AppleScript double
quote, a backslash, or a newline — provided it contains no carriage return and
no dollar sign — the segment that `buildScript` substitutes for a placeholder
is exactly `sanitizeString s` (the `$`-sequence expansion of the JS replace is
the identity on it), and that segment round-trips through the destination
format's escape/unescape rules back to `s`. -/
theorem sanitize_roundtrip_no_cr (s : String)
    (_hchar : '"' ∈ s.data ∨ '\\' ∈ s.data ∨ '\n' ∈ s.data)
    (hcr : '\r' ∉ s.data) (hdollar : '$' ∉ s.data) :
    asUnescape (AppleScriptSanitizer.sanitizeString s).data = s.data ∧
    ∀ matched before after : List Char,
      expandSub matched before after
          (AppleScriptSanitizer.sanitizeString s).data =
        (AppleScriptSanitizer.sanitizeString s).data := by
  have hdat : (AppleScriptSanitizer.sanitizeString s).data =
      sanitizeChars s.data := rfl
  rw [hdat, sanitizeChars_eq_encChar s.data hcr]
  constructor
  · exact asUnescape_encChar s.data
  · intro matched before after
    apply expandSub_no_dollar
    intro hm
    obtain ⟨c, hc, hcd⟩ := mem_charExpand encChar s.data '$' hm
    exact hdollar ((dollar_encChar c hcd) ▸ hc)

/-- Witness for C1 at a concrete string containing a quote, a backslash and a
newline. -/
theorem sanitize_roundtrip_witness :
    asUnescape (AppleScriptSanitizer.sanitizeString "a\"b\\c\nd").data =
      ("a\"b\\c\nd" : String).data :=
  (sanitize_roundtrip_no_cr "a\"b\\c\nd" (by decide) (by decide) (by decide)).1
